import Mathlib

/-!
Verification of the capture→fingerprint→compare→advance core of the eBook PDF
generator (`src/main.py`).  The perceptual-hash distance, the pHash bit
construction, the screenshot store, the PDF assembly and the `main` capture
loop are embedded as executable Lean definitions, and the documented
properties are proved (or refuted) against them.
-/

namespace EbookPdf

/-- A hash value held in `last_image_hash` or computed by `_calculate_phash`:
a Python string, modelled as a list of characters. -/
abbrev Hash := List Char

/-- Python truthiness of an `Optional[str]` value: `None` and `""` are falsy. -/
def truthy : Option Hash → Bool
  | none => false
  | some l => !l.isEmpty

/-- `AppManager._phash_distance(a, b)`: returns 0 when either operand is absent or
empty or the lengths differ, otherwise counts the positions where the two strings
differ. -/
def phash_distance : Option Hash → Option Hash → Nat
  | some a, some b =>
      if a.isEmpty || b.isEmpty || a.length != b.length then 0
      else (a.zip b).countP fun p => p.1 != p.2
  | _, _ => 0

/-- `AppManager.send_right_arrow`: primary `osascript` key delivery with a Quartz
event fallback; reports overall success. -/
def send_right_arrow (primaryOk fallbackOk : Bool) : Bool :=
  primaryOk || fallbackOk

/-- The effect of `tmp_path.rename(final_path)` on the screenshots directory:
a file with the same name is replaced, otherwise the new record is appended.
Each record is the file name (the Unix timestamp used by `capture_screenshot`)
together with the hash recorded for that file. -/
def persist (dir : List (Nat × Hash)) (t : Nat) (h : Hash) : List (Nat × Hash) :=
  dir.filter (fun e => e.1 != t) ++ [(t, h)]

/-- The sorted file listing `sorted(self.screenshots_dir.glob("*.png"))` taken by
`_create_pdf`. -/
def sorted_files (dir : List (Nat × Hash)) : List Nat :=
  List.insertionSort (· ≤ ·) (dir.map Prod.fst)

/-- `AppManager._create_pdf`: no PDF when there are no images; with more than one
image the last file in sorted order is dropped; the remaining files become the
PDF pages in order. -/
def create_pdf (dir : List (Nat × Hash)) : Option (List Nat) :=
  let image_files := sorted_files dir
  if image_files.isEmpty then none
  else if image_files.length > 1 then some image_files.dropLast
  else some image_files

/-- The outcome of one `capture_screenshot` call, as seen by the control loop. -/
inductive CaptureEvent where
  /-- A failure path that returns `None` before image creation (no PID, empty
  window list, no visible window, no window id): `reached_duplicate` is left
  untouched. -/
  | failKeep
  /-- Image-generation failure or a raised exception: `reached_duplicate` is set
  to `False` before returning `None`. -/
  | failReset
  /-- A frame was captured and written to `tmp_path` at Unix time `t`; `ph` is the
  computed pHash (`none` when `_calculate_phash` raised) and `md` the MD5 hex
  digest `_calculate_image_hash` would produce for the saved file. -/
  | frame (t : Nat) (ph : Option Hash) (md : Hash)
deriving DecidableEq

/-- The environment of one iteration of the capture loop in `main`. -/
structure LoopInput where
  /-- Whether `_get_frontmost_app` returned a truthy id different from the target. -/
  focusChanged : Bool
  cap : CaptureEvent
  /-- Whether the `osascript` key delivery succeeds. -/
  primaryOk : Bool
  /-- Whether the Quartz event fallback succeeds. -/
  fallbackOk : Bool
deriving DecidableEq

inductive Status where
  | running
  | completed
  | aborted
deriving DecidableEq

structure LoopState where
  last_image_hash : Option Hash
  reached_duplicate : Bool
  duplicate_count : Nat
  /-- The screenshots directory, in write order: file name (timestamp) and the
  hash recorded for that file. -/
  dir : List (Nat × Hash)
  /-- The pages of `ebook.pdf` once `_create_pdf` has run. -/
  pdf : Option (List Nat)
  /-- How many times `send_right_arrow` has been invoked. -/
  advanceCount : Nat
  status : Status
deriving DecidableEq

/-- `self.last_image_hash = current_phash if current_phash else
self._calculate_image_hash(final_path)`: the hash recorded for a persisted file. -/
def recordedHash (ph : Option Hash) (md : Hash) : Hash :=
  if truthy ph then ph.getD [] else md

/-- `AppManager.capture_screenshot` on event `cap`: the updated manager state and
the saved path (`some t`) or `None`. -/
def capture_screenshot (s : LoopState) (cap : CaptureEvent) : LoopState × Option Nat :=
  match cap with
  | .failKeep => (s, none)
  | .failReset => ({ s with reached_duplicate := false }, none)
  | .frame t ph md =>
      if truthy s.last_image_hash = true ∧ truthy ph = true ∧
          phash_distance ph s.last_image_hash ≤ 3 then
        ({ s with reached_duplicate := true }, none)
      else
        ({ s with
            dir := persist s.dir t (recordedHash ph md),
            last_image_hash := some (recordedHash ph md),
            reached_duplicate := false }, some t)

/-- Step 4 of the loop body in `main`: send the next-page key; on overall failure
create the PDF and stop with `Aborted`. -/
def advance_phase (s : LoopState) (i : LoopInput) : LoopState :=
  let s1 := { s with advanceCount := s.advanceCount + 1 }
  if send_right_arrow i.primaryOk i.fallbackOk then s1
  else { s1 with status := .aborted, pdf := create_pdf s1.dir }

/-- One iteration of the `while True` capture loop in `main`. -/
def step (s : LoopState) (i : LoopInput) : LoopState :=
  if i.focusChanged then
    { s with status := .completed, pdf := create_pdf s.dir }
  else
    let r := capture_screenshot s i.cap
    if r.1.reached_duplicate then
      let s2 : LoopState := { r.1 with duplicate_count := r.1.duplicate_count + 1 }
      if s2.duplicate_count ≥ 10 then
        { s2 with status := .completed, pdf := create_pdf s2.dir }
      else
        advance_phase s2 i
    else if r.2.isNone then
      r.1
    else
      advance_phase { r.1 with duplicate_count := 0 } i

/-- The capture loop: run successive iterations while not in a terminal state. -/
def run : LoopState → List LoopInput → LoopState
  | s, [] => s
  | s, i :: is => if s.status = .running then run (step s i) is else s

/-- The `AppManager` right after construction plus a fresh run's loop locals: the
screenshots folder has been cleared, no baseline hash, `duplicate_count = 0`. -/
def initState : LoopState :=
  { last_image_hash := none, reached_duplicate := false, duplicate_count := 0,
    dir := [], pdf := none, advanceCount := 0, status := .running }

/-- The captured frame is classified Duplicate by `capture_screenshot`: baseline
and candidate hash both truthy and their distance at most 3. -/
def isDupFrame (s : LoopState) (i : LoopInput) : Prop :=
  ∃ t ph md, i.cap = .frame t ph md ∧ truthy s.last_image_hash = true ∧
    truthy ph = true ∧ phash_distance ph s.last_image_hash ≤ 3

/-- The captured frame is persisted (classified New) by `capture_screenshot`. -/
def isNewFrame (s : LoopState) (i : LoopInput) : Prop :=
  ∃ t ph md, i.cap = .frame t ph md ∧
    ¬(truthy s.last_image_hash = true ∧ truthy ph = true ∧
      phash_distance ph s.last_image_hash ≤ 3)

/-- The iteration reaches step 4 of the loop body (the next-page key is sent). -/
def advanceReached (s : LoopState) (i : LoopInput) : Prop :=
  i.focusChanged = false ∧
    (((capture_screenshot s i.cap).1.reached_duplicate = true ∧
        (capture_screenshot s i.cap).1.duplicate_count + 1 < 10) ∨
      ((capture_screenshot s i.cap).1.reached_duplicate = false ∧
        (capture_screenshot s i.cap).2 ≠ none))

/-- The baseline hash equals the recorded hash of the most recent directory write
(null when nothing has been persisted). -/
def baselineInv (s : LoopState) : Prop :=
  s.last_image_hash = s.dir.getLast?.map Prod.snd

/-- An iteration whose frame is classified Duplicate, with intact focus and a
working next-page key. -/
def dupInput (s : LoopState) (i : LoopInput) : Prop :=
  i.focusChanged = false ∧ send_right_arrow i.primaryOk i.fallbackOk = true ∧
    isDupFrame s i

/-- The unnormalised 1D DCT `dct_1d` inside `_calculate_phash`:
`result[k] = Σ_n v[n] * cos((π/N)(n+0.5)k)` with `N = len(v)`.  The cosine values
of the floating-point source are supplied abstractly as `c N n k`. -/
def dct_1d (c : Nat → Nat → Nat → ℚ) (v : List ℚ) : List ℚ :=
  (List.range v.length).map fun k =>
    ((List.range v.length).map fun n => v.getD n 0 * c v.length n k).sum

/-- `matrix = [pixels[i*32:(i+1)*32] for i in range(32)]`. -/
def phash_matrix (pixels : List ℚ) : List (List ℚ) :=
  (List.range 32).map fun i => (pixels.drop (i * 32)).take 32

/-- The separable 2D DCT of `_calculate_phash`: the 1D DCT over every row, then
over every column of the result. -/
def phash_dct (c : Nat → Nat → Nat → ℚ) (pixels : List ℚ) : List (List ℚ) :=
  let dct_rows := (phash_matrix pixels).map (dct_1d c)
  (dct_rows.transpose.map (dct_1d c)).transpose

/-- `vals`: the coefficients of the top-left 8×8 block in row-major order with the
DC coefficient at (0,0) skipped. -/
def phash_vals (c : Nat → Nat → Nat → ℚ) (pixels : List ℚ) : List ℚ :=
  ((List.range 8).map fun y =>
    (List.range 8).filterMap fun x =>
      if y = 0 ∧ x = 0 then none
      else some (((phash_dct c pixels).getD y []).getD x 0)).flatten

/-- `avg = sum(vals) / len(vals) if vals else 0`. -/
def phash_avg (c : Nat → Nat → Nat → ℚ) (pixels : List ℚ) : ℚ :=
  let vals := phash_vals c pixels
  if vals.isEmpty then 0 else vals.sum / (vals.length : ℚ)

/-- `AppManager._calculate_phash` applied to the 32×32 luminance grid `pixels`
(the flat pixel list produced by `image.convert('L').resize((32, 32),
Image.BICUBIC)`): the 64-character bit string. -/
def calculate_phash (c : Nat → Nat → Nat → ℚ) (pixels : List ℚ) : Hash :=
  ((List.range 8).map fun y =>
    (List.range 8).map fun x =>
      if y = 0 ∧ x = 0 then '0'
      else if ((phash_dct c pixels).getD y []).getD x 0 > phash_avg c pixels then '1'
      else '0').flatten

/-- A run of appends, one `tmp_path.rename(final_path)` per persisted capture. -/
def appendRun (dir ws : List (Nat × Hash)) : List (Nat × Hash) :=
  ws.foldl (fun d w => persist d w.1 w.2) dir

/-! ## Concrete states and inputs used by witnesses and counterexamples -/

/-- A state whose baseline is the all-zero 64-bit fingerprint. -/
def c1State : LoopState :=
  { initState with last_image_hash := some (List.replicate 64 '0') }

/-- An iteration capturing a frame whose pHash equals the baseline. -/
def c1Input : LoopInput :=
  { focusChanged := false, cap := .frame 100 (some (List.replicate 64 '0')) ['m'],
    primaryOk := true, fallbackOk := true }

/-- An iteration capturing a frame with a computed pHash while no baseline exists. -/
def c4Input : LoopInput :=
  { focusChanged := false, cap := .frame 100 (some (List.replicate 64 '1')) ['m'],
    primaryOk := true, fallbackOk := true }

/-- First iteration: a fresh page is captured and persisted. -/
def c5New : LoopInput :=
  { focusChanged := false, cap := .frame 100 (some (List.replicate 64 '0')) ['m'],
    primaryOk := true, fallbackOk := true }

/-- Second iteration: the same page again, classified Duplicate. -/
def c5Dup : LoopInput :=
  { focusChanged := false, cap := .frame 101 (some (List.replicate 64 '0')) ['m'],
    primaryOk := true, fallbackOk := true }

/-- Third iteration: `capture_screenshot` fails on the "no visible window" path,
which returns `None` without touching `reached_duplicate`. -/
def c5Fail : LoopInput :=
  { focusChanged := false, cap := .failKeep, primaryOk := true, fallbackOk := true }

/-- The state reached after persisting one page and then classifying one
duplicate: `reached_duplicate` is still `True`. -/
def c5State : LoopState := run initState [c5New, c5Dup]

/-- The state after one persisted page, about to receive only duplicates. -/
def c3State : LoopState :=
  { initState with last_image_hash := some (List.replicate 64 '0'),
                   dir := [(100, List.replicate 64 '0')] }

/-- An iteration capturing a frame identical to the baseline. -/
def c3Dup : LoopInput :=
  { focusChanged := false, cap := .frame 101 (some (List.replicate 64 '0')) ['m'],
    primaryOk := true, fallbackOk := true }

/-- An iteration in which pHash computation fails on the captured frame. -/
def c7Input : LoopInput :=
  { focusChanged := false, cap := .frame 100 none (List.replicate 32 'a'),
    primaryOk := true, fallbackOk := true }

/-- An iteration persisting a fresh page on which both key-delivery paths fail. -/
def c8Input : LoopInput :=
  { focusChanged := false, cap := .frame 102 (some (List.replicate 64 '1')) ['m'],
    primaryOk := false, fallbackOk := false }

/-! ## Helper lemmas -/

theorem bne_char_comm (x y : Char) : (x != y) = (y != x) := by
  by_cases h : x = y
  · subst h; rfl
  · have h1 : (x != y) = true := by simpa [bne_iff_ne] using h
    have h2 : (y != x) = true := by simpa [bne_iff_ne] using Ne.symm h
    rw [h1, h2]

theorem countP_zip_ne_comm (a : List Char) :
    ∀ b : List Char, (a.zip b).countP (fun p => p.1 != p.2)
      = (b.zip a).countP (fun p => p.1 != p.2) := by
  induction a with
  | nil => intro b; cases b <;> simp
  | cons x xs ih =>
    intro b
    cases b with
    | nil => simp
    | cons y ys =>
      simp only [List.zip_cons_cons, List.countP_cons, ih ys]
      rw [bne_char_comm]

theorem countP_zip_self_eq_zero (a : List Char) :
    (a.zip a).countP (fun p => p.1 != p.2) = 0 := by
  induction a with
  | nil => simp
  | cons x xs ih => simp [List.zip_cons_cons, List.countP_cons, ih]

theorem advance_phase_ok (s : LoopState) (i : LoopInput)
    (h : send_right_arrow i.primaryOk i.fallbackOk = true) :
    advance_phase s i = { s with advanceCount := s.advanceCount + 1 } := by
  simp [advance_phase, h]

theorem advance_phase_fail (s : LoopState) (i : LoopInput)
    (h : send_right_arrow i.primaryOk i.fallbackOk = false) :
    advance_phase s i =
      { s with advanceCount := s.advanceCount + 1,
               status := .aborted, pdf := create_pdf s.dir } := by
  simp [advance_phase, h]

theorem advance_phase_dir (s : LoopState) (i : LoopInput) :
    (advance_phase s i).dir = s.dir ∧
    (advance_phase s i).last_image_hash = s.last_image_hash ∧
    (advance_phase s i).duplicate_count = s.duplicate_count ∧
    (advance_phase s i).reached_duplicate = s.reached_duplicate ∧
    (advance_phase s i).advanceCount = s.advanceCount + 1 := by
  cases h : send_right_arrow i.primaryOk i.fallbackOk
  · rw [advance_phase_fail s i h]
    exact ⟨rfl, rfl, rfl, rfl, rfl⟩
  · rw [advance_phase_ok s i h]
    exact ⟨rfl, rfl, rfl, rfl, rfl⟩

theorem step_frame_dup (s : LoopState) (i : LoopInput) (t : Nat) (ph : Option Hash)
    (md : Hash) (hf : i.focusChanged = false) (hcap : i.cap = .frame t ph md)
    (h : truthy s.last_image_hash = true ∧ truthy ph = true ∧
      phash_distance ph s.last_image_hash ≤ 3) :
    step s i =
      if s.duplicate_count + 1 ≥ 10 then
        { s with reached_duplicate := true, duplicate_count := s.duplicate_count + 1,
                 status := .completed, pdf := create_pdf s.dir }
      else
        advance_phase
          { s with reached_duplicate := true,
                   duplicate_count := s.duplicate_count + 1 } i := by
  simp [step, hf, hcap, capture_screenshot, h]

theorem step_frame_new (s : LoopState) (i : LoopInput) (t : Nat) (ph : Option Hash)
    (md : Hash) (hf : i.focusChanged = false) (hcap : i.cap = .frame t ph md)
    (h : ¬(truthy s.last_image_hash = true ∧ truthy ph = true ∧
      phash_distance ph s.last_image_hash ≤ 3)) :
    step s i =
      advance_phase
        { s with dir := persist s.dir t (recordedHash ph md),
                 last_image_hash := some (recordedHash ph md),
                 reached_duplicate := false, duplicate_count := 0 } i := by
  simp [step, hf, hcap, capture_screenshot, h]

theorem isDupFrame_congr (s s' : LoopState) (i : LoopInput)
    (h : s'.last_image_hash = s.last_image_hash) :
    isDupFrame s i → isDupFrame s' i := by
  rintro ⟨t, ph, md, hcap, h1, h2, h3⟩
  exact ⟨t, ph, md, hcap, by rw [h]; exact h1, h2, by rw [h]; exact h3⟩

theorem step_dup_lt (s : LoopState) (i : LoopInput) (hf : i.focusChanged = false)
    (hadv : send_right_arrow i.primaryOk i.fallbackOk = true)
    (hdup : isDupFrame s i) (hlt : s.duplicate_count + 1 < 10) :
    step s i =
      { s with reached_duplicate := true,
               duplicate_count := s.duplicate_count + 1,
               advanceCount := s.advanceCount + 1 } := by
  obtain ⟨t, ph, md, hcap, h1, h2, h3⟩ := hdup
  rw [step_frame_dup s i t ph md hf hcap ⟨h1, h2, h3⟩, if_neg (by omega)]
  rw [advance_phase_ok _ i hadv]

theorem step_dup_ten (s : LoopState) (i : LoopInput) (hf : i.focusChanged = false)
    (hdup : isDupFrame s i) (h10 : s.duplicate_count + 1 ≥ 10) :
    step s i =
      { s with reached_duplicate := true,
               duplicate_count := s.duplicate_count + 1,
               status := .completed, pdf := create_pdf s.dir } := by
  obtain ⟨t, ph, md, hcap, h1, h2, h3⟩ := hdup
  rw [step_frame_dup s i t ph md hf hcap ⟨h1, h2, h3⟩, if_pos h10]

theorem run_dups_lt (l : List LoopInput) : ∀ s : LoopState, s.status = .running →
    (∀ i ∈ l, dupInput s i) → s.duplicate_count + l.length < 10 →
    (run s l).status = .running ∧
    (run s l).duplicate_count = s.duplicate_count + l.length ∧
    (run s l).dir = s.dir ∧
    (run s l).last_image_hash = s.last_image_hash ∧
    (run s l).advanceCount = s.advanceCount + l.length := by
  induction l with
  | nil => intro s hs _ _; exact ⟨hs, rfl, rfl, rfl, rfl⟩
  | cons i is ih =>
    intro s hs hall hlt
    obtain ⟨hf, hadv, hdup⟩ := hall i (List.mem_cons_self i is)
    rw [List.length_cons] at hlt
    have hstep := step_dup_lt s i hf hadv hdup (by omega)
    have hrun : run s (i :: is) = run (step s i) is := by simp [run, hs]
    rw [hrun, hstep]
    have ihres := ih
      { s with reached_duplicate := true, duplicate_count := s.duplicate_count + 1,
               advanceCount := s.advanceCount + 1 } hs
      (fun j hj => by
        obtain ⟨hf', hadv', hdup'⟩ := hall j (List.mem_cons_of_mem i hj)
        exact ⟨hf', hadv', isDupFrame_congr s _ j rfl hdup'⟩)
      (by simp; omega)
    refine ⟨ihres.1, ?_, ?_, ?_, ?_⟩
    · rw [ihres.2.1]; simp; omega
    · rw [ihres.2.2.1]
    · rw [ihres.2.2.2.1]
    · rw [ihres.2.2.2.2]; simp; omega

theorem run_dups_complete (l : List LoopInput) : ∀ s : LoopState,
    s.status = .running → (∀ i ∈ l, dupInput s i) →
    s.duplicate_count + l.length = 10 → l ≠ [] →
    (run s l).status = .completed ∧
    (run s l).duplicate_count = 10 ∧
    (run s l).dir = s.dir ∧
    (run s l).pdf = create_pdf s.dir ∧
    (run s l).advanceCount = s.advanceCount + (l.length - 1) := by
  induction l with
  | nil => intro s _ _ _ hne; exact absurd rfl hne
  | cons i is ih =>
    intro s hs hall hsum _
    obtain ⟨hf, hadv, hdup⟩ := hall i (List.mem_cons_self i is)
    rw [List.length_cons] at hsum
    have hrun : run s (i :: is) = run (step s i) is := by simp [run, hs]
    cases is with
    | nil =>
      simp only [List.length_nil] at hsum
      have h10 : s.duplicate_count + 1 ≥ 10 := by omega
      have hstep := step_dup_ten s i hf hdup h10
      rw [hrun, hstep]
      refine ⟨rfl, ?_, rfl, rfl, rfl⟩
      show s.duplicate_count + 1 = 10
      omega
    | cons j js =>
      have hstep := step_dup_lt s i hf hadv hdup
        (by rw [List.length_cons] at hsum; omega)
      rw [hrun, hstep]
      have ihres := ih
        { s with reached_duplicate := true, duplicate_count := s.duplicate_count + 1,
                 advanceCount := s.advanceCount + 1 } hs
        (fun k hk => by
          obtain ⟨hf', hadv', hdup'⟩ := hall k (List.mem_cons_of_mem i hk)
          exact ⟨hf', hadv', isDupFrame_congr s _ k rfl hdup'⟩)
        (by simp at hsum ⊢; omega)
        (by simp)
      refine ⟨ihres.1, ihres.2.1, ihres.2.2.1, ihres.2.2.2.1, ?_⟩
      rw [ihres.2.2.2.2]; simp; omega

theorem step_dir_hash (s : LoopState) (i : LoopInput) :
    ((step s i).dir = s.dir ∧ (step s i).last_image_hash = s.last_image_hash) ∨
    (∃ t ph md, i.cap = .frame t ph md ∧
      (step s i).dir = persist s.dir t (recordedHash ph md) ∧
      (step s i).last_image_hash = some (recordedHash ph md)) := by
  by_cases hf : i.focusChanged = true
  · left; constructor <;> simp [step, hf]
  · have hf' : i.focusChanged = false := by simpa using hf
    cases hcap : i.cap with
    | failKeep =>
      left
      constructor <;>
        (simp only [step, hf', Bool.false_eq_true, if_false, hcap,
           capture_screenshot, advance_phase]
         split <;> (try split) <;> (try split) <;> rfl)
    | failReset =>
      left
      constructor <;>
        (simp only [step, hf', Bool.false_eq_true, if_false, hcap,
           capture_screenshot, advance_phase]
         split <;> (try split) <;> rfl)
    | frame t ph md =>
      by_cases hcond : truthy s.last_image_hash = true ∧ truthy ph = true ∧
          phash_distance ph s.last_image_hash ≤ 3
      · left
        rw [step_frame_dup s i t ph md hf' hcap hcond]
        by_cases h10 : s.duplicate_count + 1 ≥ 10
        · rw [if_pos h10]; exact ⟨rfl, rfl⟩
        · rw [if_neg h10]
          exact ⟨(advance_phase_dir _ i).1, (advance_phase_dir _ i).2.1⟩
      · right
        refine ⟨t, ph, md, rfl, ?_, ?_⟩ <;>
          rw [step_frame_new s i t ph md hf' hcap hcond]
        · exact (advance_phase_dir _ i).1
        · exact (advance_phase_dir _ i).2.1

theorem capture_preserves_counts (s : LoopState) (cap : CaptureEvent) :
    (capture_screenshot s cap).1.advanceCount = s.advanceCount ∧
    (capture_screenshot s cap).1.status = s.status ∧
    (capture_screenshot s cap).1.duplicate_count = s.duplicate_count := by
  cases cap with
  | failKeep => exact ⟨rfl, rfl, rfl⟩
  | failReset => exact ⟨rfl, rfl, rfl⟩
  | frame t ph md =>
    by_cases hcond : truthy s.last_image_hash = true ∧ truthy ph = true ∧
        phash_distance ph s.last_image_hash ≤ 3 <;>
      simp [capture_screenshot, hcond]

theorem run_of_terminal (s : LoopState) (h : ¬s.status = .running) :
    ∀ l, run s l = s := by
  intro l
  cases l with
  | nil => rfl
  | cons i is => simp [run, h]

theorem getD_map_range {α : Type} (n : Nat) (f : Nat → α) (y : Nat) (hy : y < n)
    (d : α) : ((List.range n).map f).getD y d = f y := by
  rw [List.getD_eq_getElem _ _ (by simpa using hy)]
  simp

theorem flatten_getD_const {α : Type} (k : Nat) (d : α) :
    ∀ (L : List (List α)) (y x : Nat), (∀ l ∈ L, l.length = k) → y < L.length →
      x < k → L.flatten.getD (k * y + x) d = (L.getD y []).getD x d := by
  intro L
  induction L with
  | nil => intro y x _ hy _; simp at hy
  | cons l ls ih =>
    intro y x hk hy hx
    cases y with
    | zero =>
      have hl : l.length = k := hk l (List.mem_cons_self l ls)
      have hlt : k * 0 + x < l.length := by rw [hl]; omega
      simp only [List.flatten_cons]
      rw [List.getD_append _ _ _ _ (by rw [hl]; simpa using hx)]
      simp
    | succ y' =>
      have hl : l.length = k := hk l (List.mem_cons_self l ls)
      simp only [List.flatten_cons]
      rw [List.getD_append_right _ _ _ _ (by rw [hl]; nlinarith [Nat.mul_le_mul_left k (Nat.le_add_left 1 y')])]
      have harith : k * (y' + 1) + x - l.length = k * y' + x := by
        rw [hl]; ring_nf; omega
      rw [harith]
      rw [ih y' x (fun j hj => hk j (List.mem_cons_of_mem l hj)) (by simpa using hy) hx]
      simp

/-! ## Claim theorems -/

/-- C9: the Hamming distance of `_phash_distance` is symmetric,
`distance(a,b) = distance(b,a)`, and `distance(a,a) = 0` for every operand `a`. -/
theorem phash_distance_symm_self :
    (∀ a b : Option Hash, phash_distance a b = phash_distance b a) ∧
    (∀ a : Option Hash, phash_distance a a = 0) := by
  constructor
  · intro a b
    cases a with
    | none => cases b <;> rfl
    | some la =>
      cases b with
      | none => rfl
      | some lb =>
        by_cases ha : la = []
        · simp [phash_distance, ha]
        · by_cases hb : lb = []
          · simp [phash_distance, hb]
          · by_cases h : la.length = lb.length
            · have hla : la.isEmpty = false := by simpa using ha
              have hlb : lb.isEmpty = false := by simpa using hb
              have h1 : (la.length != lb.length) = false := by simp [h]
              have h2 : (lb.length != la.length) = false := by simp [h]
              simp [phash_distance, hla, hlb, h1, h2, countP_zip_ne_comm la lb]
            · have h1 : (la.length != lb.length) = true := by simp [h]
              have h2 : (lb.length != la.length) = true := by simp [Ne.symm h]
              simp [phash_distance, h1, h2]
  · intro a
    cases a with
    | none => rfl
    | some la =>
      by_cases ha : la = [] <;>
        simp [phash_distance, ha, countP_zip_self_eq_zero la]

/-- C1: when the baseline and the candidate pHash are both present 64-character
fingerprints, `capture_screenshot` classifies the frame as Duplicate exactly when
the Hamming distance is at most the threshold 3 (boundary-inclusive); a Duplicate
frame is not persisted (the directory is unchanged by the whole iteration), while
a New frame is persisted as the new final file. -/
theorem duplicate_iff_distance_le_threshold (s : LoopState) (i : LoopInput)
    (t : Nat) (b c : Hash) (md : Hash)
    (hfocus : i.focusChanged = false)
    (hcap : i.cap = .frame t (some c) md)
    (hb : s.last_image_hash = some b)
    (hbl : b.length = 64) (hcl : c.length = 64) :
    ((capture_screenshot s i.cap).1.reached_duplicate = true ↔
      phash_distance (some c) (some b) ≤ 3) ∧
    (phash_distance (some c) (some b) ≤ 3 → (step s i).dir = s.dir) ∧
    (3 < phash_distance (some c) (some b) →
      (step s i).dir = persist s.dir t c) := by
  have hbne : ¬b = [] := by intro hh; rw [hh] at hbl; simp at hbl
  have hcne : ¬c = [] := by intro hh; rw [hh] at hcl; simp at hcl
  have htb : truthy s.last_image_hash = true := by
    rw [hb]; simp [truthy, hbne]
  have htc : truthy (some c) = true := by simp [truthy, hcne]
  by_cases hd : phash_distance (some c) (some b) ≤ 3
  · have hcond : truthy s.last_image_hash = true ∧ truthy (some c) = true ∧
        phash_distance (some c) s.last_image_hash ≤ 3 := ⟨htb, htc, by rw [hb]; exact hd⟩
    refine ⟨⟨fun _ => hd, fun _ => ?_⟩, fun _ => ?_, fun hgt => absurd hd (by omega)⟩
    · rw [hcap]; simp [capture_screenshot, hcond]
    · rw [step_frame_dup s i t (some c) md hfocus hcap hcond]
      by_cases h10 : s.duplicate_count + 1 ≥ 10
      · rw [if_pos h10]
      · rw [if_neg h10]
        exact (advance_phase_dir _ i).1
  · have hcond : ¬(truthy s.last_image_hash = true ∧ truthy (some c) = true ∧
        phash_distance (some c) s.last_image_hash ≤ 3) := by
      rw [hb]; intro hh; exact hd hh.2.2
    have hrec : recordedHash (some c) md = c := by simp [recordedHash, htc]
    refine ⟨⟨fun hdup => ?_, fun hh => absurd hh hd⟩, fun hh => absurd hh hd, fun _ => ?_⟩
    · rw [hcap] at hdup
      simp [capture_screenshot, hcond] at hdup
    · rw [step_frame_new s i t (some c) md hfocus hcap hcond]
      rw [hrec]
      exact (advance_phase_dir _ i).1

theorem duplicate_iff_distance_le_threshold_witness :
    ((capture_screenshot c1State c1Input.cap).1.reached_duplicate = true ↔
      phash_distance (some (List.replicate 64 '0')) (some (List.replicate 64 '0')) ≤ 3) ∧
    (step c1State c1Input).dir = c1State.dir := by
  have h := duplicate_iff_distance_le_threshold c1State c1Input 100
    (List.replicate 64 '0') (List.replicate 64 '0') ['m'] rfl rfl rfl
    (by simp) (by simp)
  exact ⟨h.1, h.2.1 (by decide)⟩

/-- C4 counterexample: with the baseline absent (no page persisted yet) the
comparison is skipped, the frame is classified New (`reached_duplicate = false`)
and it IS persisted — refuting the claim that an absent operand leads to a
Duplicate classification and no persistence. -/
theorem absent_baseline_persisted_counterexample :
    initState.last_image_hash = none ∧
    (capture_screenshot initState c4Input.cap).1.reached_duplicate = false ∧
    (step initState c4Input).dir = [(100, List.replicate 64 '1')] := by
  refine ⟨rfl, ?_, ?_⟩ <;> decide

/-- C4 amended: `_phash_distance` does return 0 whenever an operand is absent or
empty or the lengths differ; a present-but-mismatched-length pair is classified
Duplicate and not persisted; but an absent operand (no baseline yet, or pHash
computation failed) skips the comparison entirely and the frame is persisted as
New. -/
theorem distance_zero_and_skip_amended :
    (∀ b, phash_distance none b = 0) ∧
    (∀ a, phash_distance a none = 0) ∧
    (∀ la lb : Hash, la.length ≠ lb.length → phash_distance (some la) (some lb) = 0) ∧
    (∀ s i t (la lb : Hash) md, i.focusChanged = false → i.cap = .frame t (some la) md →
      s.last_image_hash = some lb → ¬la = [] → ¬lb = [] → la.length ≠ lb.length →
      (capture_screenshot s i.cap).1.reached_duplicate = true ∧ (step s i).dir = s.dir) ∧
    (∀ s i t ph md, i.focusChanged = false → i.cap = .frame t ph md →
      s.last_image_hash = none →
      (capture_screenshot s i.cap).1.reached_duplicate = false ∧
      (step s i).dir = persist s.dir t (recordedHash ph md)) ∧
    (∀ s i t md, i.focusChanged = false → i.cap = .frame t none md →
      (capture_screenshot s i.cap).1.reached_duplicate = false ∧
      (step s i).dir = persist s.dir t md ∧
      (step s i).last_image_hash = some md) := by
  have hdist0 : ∀ la lb : Hash, la.length ≠ lb.length →
      phash_distance (some la) (some lb) = 0 := by
    intro la lb hne
    have h1 : (la.length != lb.length) = true := by simp [hne]
    simp [phash_distance, h1]
  refine ⟨fun b => rfl, fun a => by cases a <;> rfl, hdist0, ?_, ?_, ?_⟩
  · intro s i t la lb md hf hcap hb hla hlb hlen
    have hcond : truthy s.last_image_hash = true ∧ truthy (some la) = true ∧
        phash_distance (some la) s.last_image_hash ≤ 3 := by
      refine ⟨by rw [hb]; simp [truthy, hlb], by simp [truthy, hla], ?_⟩
      rw [hb, hdist0 la lb hlen]; omega
    refine ⟨by rw [hcap]; simp [capture_screenshot, hcond], ?_⟩
    rw [step_frame_dup s i t (some la) md hf hcap hcond]
    by_cases h10 : s.duplicate_count + 1 ≥ 10
    · rw [if_pos h10]
    · rw [if_neg h10]; exact (advance_phase_dir _ i).1
  · intro s i t ph md hf hcap hb
    have hcond : ¬(truthy s.last_image_hash = true ∧ truthy ph = true ∧
        phash_distance ph s.last_image_hash ≤ 3) := by
      rw [hb]; intro hh; simpa [truthy] using hh.1
    refine ⟨by rw [hcap]; simp [capture_screenshot, hcond], ?_⟩
    rw [step_frame_new s i t ph md hf hcap hcond]
    exact (advance_phase_dir _ i).1
  · intro s i t md hf hcap
    have hcond : ¬(truthy s.last_image_hash = true ∧ truthy (none : Option Hash) = true ∧
        phash_distance none s.last_image_hash ≤ 3) := by
      intro hh; simpa [truthy] using hh.2.1
    have hrec : recordedHash none md = md := by simp [recordedHash, truthy]
    refine ⟨by rw [hcap]; simp [capture_screenshot, hcond], ?_, ?_⟩
    · rw [step_frame_new s i t none md hf hcap hcond, hrec]
      exact (advance_phase_dir _ i).1
    · rw [step_frame_new s i t none md hf hcap hcond, hrec]
      exact (advance_phase_dir _ i).2.1

/-- Witness for the amended C4 at a concrete state and input: no baseline yet,
so the captured frame is persisted. -/
theorem distance_zero_and_skip_amended_witness :
    (capture_screenshot initState c4Input.cap).1.reached_duplicate = false ∧
    (step initState c4Input).dir =
      persist initState.dir 100 (recordedHash (some (List.replicate 64 '1')) ['m']) :=
  distance_zero_and_skip_amended.2.2.2.2.1 initState c4Input 100
    (some (List.replicate 64 '1')) ['m'] rfl rfl rfl

/-- C3: a New classification resets `duplicate_count` to 0; a Duplicate
classification increments it by 1 and leaves the store unchanged; when the
counter reaches the maximum 10 the loop stops with Completed and sends no
further next-page input; consequently, from a running state with counter 0,
feeding 10 consecutive Duplicate-classified captures terminates the run as
Completed after exactly 10 such classifications (every proper prefix is still
running), with the store exactly as before the run of duplicates and only 9
further next-page inputs sent. -/
theorem loop_terminates_after_ten_duplicates :
    (∀ s i, i.focusChanged = false → isNewFrame s i →
      (step s i).duplicate_count = 0) ∧
    (∀ s i, i.focusChanged = false → isDupFrame s i →
      (step s i).duplicate_count = s.duplicate_count + 1 ∧ (step s i).dir = s.dir) ∧
    (∀ s i, i.focusChanged = false → isDupFrame s i → s.duplicate_count + 1 ≥ 10 →
      (step s i).status = .completed ∧ (step s i).advanceCount = s.advanceCount) ∧
    (∀ s (l : List LoopInput), s.status = .running → s.duplicate_count = 0 →
      l.length = 10 → (∀ i ∈ l, dupInput s i) →
      (run s l).status = .completed ∧ (run s l).dir = s.dir ∧
      (run s l).duplicate_count = 10 ∧
      (run s l).advanceCount = s.advanceCount + 9 ∧
      (∀ k, k < 10 → (run s (l.take k)).status = .running)) := by
  refine ⟨?_, ?_, ?_, ?_⟩
  · intro s i hf hnew
    obtain ⟨t, ph, md, hcap, hncond⟩ := hnew
    rw [step_frame_new s i t ph md hf hcap hncond]
    exact (advance_phase_dir _ i).2.2.1
  · intro s i hf hdup
    obtain ⟨t, ph, md, hcap, h1, h2, h3⟩ := hdup
    rw [step_frame_dup s i t ph md hf hcap ⟨h1, h2, h3⟩]
    by_cases h10 : s.duplicate_count + 1 ≥ 10
    · rw [if_pos h10]; exact ⟨rfl, rfl⟩
    · rw [if_neg h10]
      exact ⟨(advance_phase_dir _ i).2.2.1, (advance_phase_dir _ i).1⟩
  · intro s i hf hdup h10
    rw [step_dup_ten s i hf hdup h10]
    exact ⟨rfl, rfl⟩
  · intro s l hs hc0 hlen hall
    have hsum : s.duplicate_count + l.length = 10 := by rw [hc0, hlen]
    have hne : l ≠ [] := by
      intro hl; rw [hl] at hlen; simp at hlen
    obtain ⟨h1, h2, h3, h4, h5⟩ := run_dups_complete l s hs hall hsum hne
    refine ⟨h1, h3, h2, by rw [h5, hlen], ?_⟩
    intro k hk
    have htake : (l.take k).length = k := by
      rw [List.length_take, hlen]; omega
    have hlt : s.duplicate_count + (l.take k).length < 10 := by
      rw [hc0, htake]; omega
    exact (run_dups_lt (l.take k) s hs
      (fun j hj => hall j (List.mem_of_mem_take hj)) hlt).1

theorem loop_terminates_after_ten_duplicates_witness :
    (run c3State (List.replicate 10 c3Dup)).status = .completed ∧
    (run c3State (List.replicate 10 c3Dup)).dir = c3State.dir ∧
    (run c3State (List.replicate 10 c3Dup)).duplicate_count = 10 ∧
    (run c3State (List.replicate 10 c3Dup)).advanceCount = c3State.advanceCount + 9 ∧
    (run c3State ((List.replicate 10 c3Dup).take 9)).status = .running := by
  have h := loop_terminates_after_ten_duplicates.2.2.2 c3State
    (List.replicate 10 c3Dup) rfl rfl (by simp)
    (fun i hi => by
      rw [List.eq_of_mem_replicate hi]
      exact ⟨rfl, rfl, 101, some (List.replicate 64 '0'), ['m'], rfl,
        by decide, by decide, by decide⟩)
  exact ⟨h.1, h.2.1, h.2.2.1, h.2.2.2.1, h.2.2.2.2 9 (by norm_num)⟩

/-- C7 counterexample: when pHash computation fails, the persisted page's
recorded hash is the 32-character MD5 hex digest, so the baseline is not a
64-bit fingerprint of the page — refuting the claim that the baseline always
equals the fixed-length 64-bit fingerprint of the most recently persisted page. -/
theorem baseline_md5_fallback_counterexample :
    (step initState c7Input).dir = [(100, List.replicate 32 'a')] ∧
    (step initState c7Input).last_image_hash = some (List.replicate 32 'a') ∧
    (List.replicate 32 'a').length ≠ 64 := by
  refine ⟨?_, ?_, ?_⟩ <;> decide

/-- C7 amended: throughout a run the baseline equals the hash recorded for the
most recently persisted page — its pHash when computed, otherwise its MD5 hex
digest — and is null before any page is persisted; it is never updated from a
frame classified Duplicate. -/
theorem baseline_invariant_amended :
    baselineInv initState ∧
    (∀ s i, baselineInv s → baselineInv (step s i)) ∧
    (∀ l, baselineInv (run initState l)) ∧
    (∀ s i, i.focusChanged = false → isDupFrame s i →
      (step s i).last_image_hash = s.last_image_hash) := by
  have hstep : ∀ s i, baselineInv s → baselineInv (step s i) := by
    intro s i h
    rcases step_dir_hash s i with ⟨hd, hh⟩ | ⟨t, ph, md, _, hd, hh⟩
    · unfold baselineInv at *
      rw [hd, hh, h]
    · unfold baselineInv
      rw [hd, hh, persist, List.getLast?_concat]
      rfl
  have hrun : ∀ (l : List LoopInput) (s : LoopState), baselineInv s →
      baselineInv (run s l) := by
    intro l
    induction l with
    | nil => intro s h; exact h
    | cons i is ih =>
      intro s h
      by_cases hs : s.status = .running
      · rw [show run s (i :: is) = run (step s i) is from by simp [run, hs]]
        exact ih _ (hstep s i h)
      · rw [show run s (i :: is) = s from by simp [run, hs]]
        exact h
  refine ⟨rfl, hstep, fun l => hrun l initState rfl, ?_⟩
  intro s i hf hdup
  obtain ⟨t, ph, md, hcap, h1, h2, h3⟩ := hdup
  rw [step_frame_dup s i t ph md hf hcap ⟨h1, h2, h3⟩]
  by_cases h10 : s.duplicate_count + 1 ≥ 10
  · rw [if_pos h10]
  · rw [if_neg h10]; exact (advance_phase_dir _ i).2.1

/-- Witness for the amended C7: after one persisted page and one Duplicate
classification the invariant holds, and the Duplicate step left the baseline
unchanged. -/
theorem baseline_invariant_amended_witness :
    baselineInv (run initState [c5New]) ∧
    (step (run initState [c5New]) c5Dup).last_image_hash =
      (run initState [c5New]).last_image_hash :=
  ⟨baseline_invariant_amended.2.2.1 [c5New],
    baseline_invariant_amended.2.2.2 (run initState [c5New]) c5Dup rfl
      ⟨101, some (List.replicate 64 '0'), ['m'], rfl, by decide, by decide, by decide⟩⟩

/-- C8: when the iteration reaches the next-page key and delivery fails on both
the primary and the fallback path, the loop transitions to `Aborted` in that same
iteration — the advance is attempted exactly once and never retried, no further
iteration has any effect — and the PDF is created from exactly the pages
persisted up to that point (including one persisted in this very iteration). -/
theorem advance_failure_aborts (s : LoopState) (i : LoopInput)
    (hadv : advanceReached s i)
    (hp : i.primaryOk = false) (hfb : i.fallbackOk = false) :
    send_right_arrow i.primaryOk i.fallbackOk = false ∧
    (step s i).status = .aborted ∧
    (step s i).dir = (capture_screenshot s i.cap).1.dir ∧
    (step s i).pdf = create_pdf (step s i).dir ∧
    (step s i).advanceCount = s.advanceCount + 1 ∧
    (∀ l, run (step s i) l = step s i) := by
  have hf : i.focusChanged = false := hadv.1
  have hsend : send_right_arrow i.primaryOk i.fallbackOk = false := by
    rw [hp, hfb]; rfl
  have hstep : step s i =
      advance_phase
        { (capture_screenshot s i.cap).1 with
            duplicate_count :=
              if (capture_screenshot s i.cap).1.reached_duplicate = true then
                (capture_screenshot s i.cap).1.duplicate_count + 1
              else 0 } i := by
    rcases hadv.2 with ⟨hrd, hlt⟩ | ⟨hrd, hshot⟩
    · simp only [step, hf, Bool.false_eq_true, if_false]
      rw [if_pos hrd, if_neg (by omega), if_pos hrd]
    · simp only [step, hf, Bool.false_eq_true, if_false]
      rw [if_neg (by simp [hrd]), if_neg (by simpa using hshot), if_neg (by simp [hrd])]
  rw [hstep, advance_phase_fail _ i hsend]
  refine ⟨hsend, rfl, rfl, rfl, ?_, ?_⟩
  · show (capture_screenshot s i.cap).1.advanceCount + 1 = s.advanceCount + 1
    rw [(capture_preserves_counts s i.cap).1]
  · exact run_of_terminal _ (by intro hh; exact Status.noConfusion hh)

theorem advance_failure_aborts_witness :
    send_right_arrow c8Input.primaryOk c8Input.fallbackOk = false ∧
    (step c3State c8Input).status = .aborted ∧
    (step c3State c8Input).dir = (capture_screenshot c3State c8Input.cap).1.dir ∧
    (step c3State c8Input).pdf = create_pdf (step c3State c8Input).dir ∧
    (step c3State c8Input).advanceCount = c3State.advanceCount + 1 := by
  have h := advance_failure_aborts c3State c8Input
    ⟨rfl, Or.inr ⟨by decide, by decide⟩⟩ rfl rfl
  exact ⟨h.1, h.2.1, h.2.2.1, h.2.2.2.1, h.2.2.2.2.1⟩

/-- C5 failing input: in the reachable state `c5State` (one persisted page, one
Duplicate classification, stale `reached_duplicate = True`), a capture failure
that returns before image creation is counted as another duplicate
(`duplicate_count` 1 → 2) and the loop advances to the next page instead of
retrying the capture — the `elif shot is None` retry branch is never reached
because `reached_duplicate` is checked first. -/
theorem capture_failure_counted_as_duplicate_bug :
    c5State.status = .running ∧ c5State.reached_duplicate = true ∧
    c5State.duplicate_count = 1 ∧ c5State.advanceCount = 2 ∧
    (step c5State c5Fail).duplicate_count = 2 ∧
    (step c5State c5Fail).advanceCount = 3 := by
  refine ⟨?_, ?_, ?_, ?_, ?_, ?_⟩ <;> decide

/-- C6 counterexample: two successive appends at Unix times 5 and 7 produce the
record names 5 and 7 — not sequence indices 1 and 2 — refuting the claim that
successive appends assign indices increasing by exactly 1 starting at 1. -/
theorem append_names_not_consecutive_counterexample :
    (persist (persist [] 5 ['a']) 7 ['b']).map Prod.fst = [5, 7] ∧
    ¬((persist (persist [] 5 ['a']) 7 ['b']).map Prod.fst = [1, 2]) := by
  refine ⟨?_, ?_⟩ <;> decide

/-- C6 amended: the store directory starts empty (cleared once at manager
initialisation); an append whose timestamp name is not already present leaves
every existing record unchanged and adds the new record at the end; hence a run
of appends with strictly increasing timestamps is pure append-only — no record
is overwritten, edited, or reordered — with names in capture order. -/
theorem append_timestamp_monotone_amended :
    initState.dir = [] ∧
    (∀ dir t h, (∀ e ∈ dir, e.1 ≠ t) → persist dir t h = dir ++ [(t, h)]) ∧
    (∀ ws dir, ((dir ++ ws).map Prod.fst).Pairwise (· < ·) →
      appendRun dir ws = dir ++ ws) := by
  have hfresh : ∀ (dir : List (Nat × Hash)) t h, (∀ e ∈ dir, e.1 ≠ t) →
      persist dir t h = dir ++ [(t, h)] := by
    intro dir t h hne
    unfold persist
    rw [List.filter_eq_self.mpr]
    intro e he
    simpa using hne e he
  refine ⟨rfl, hfresh, ?_⟩
  intro ws
  induction ws with
  | nil => intro dir _; simp [appendRun]
  | cons w ws ih =>
    intro dir hp
    have hlt : ∀ e ∈ dir, e.1 < w.1 := by
      intro e he
      have hsplit := (List.pairwise_append.mp (by simpa using hp)).2.2
      exact hsplit e.1 (List.mem_map_of_mem Prod.fst he) w.1 (by simp)
    have hpersist : persist dir w.1 w.2 = dir ++ [w] :=
      hfresh dir w.1 w.2 (fun e he => Nat.ne_of_lt (hlt e he))
    have hstep : appendRun dir (w :: ws) = appendRun (persist dir w.1 w.2) ws := rfl
    rw [hstep, hpersist, ih (dir ++ [w]) (by rw [List.append_assoc]; exact hp)]
    simp

theorem append_timestamp_monotone_amended_witness :
    persist [(5, ['a'])] 7 ['b'] = [(5, ['a']), (7, ['b'])] ∧
    appendRun [] [(5, ['a']), (7, ['b'])] = [(5, ['a']), (7, ['b'])] := by
  have h := append_timestamp_monotone_amended
  refine ⟨h.2.1 [(5, ['a'])] 7 ['b'] (by decide), ?_⟩
  have h2 := h.2.2 [(5, ['a']), (7, ['b'])] [] (by decide)
  simpa using h2

/-- C10: with at least two screenshots, `_create_pdf` drops exactly the file that
sorts last by name and emits the remaining files as PDF pages in sorted order
(one fewer page than screenshots, every remaining name bounded by the dropped
one); with exactly one screenshot that image is kept; whenever any screenshot
exists the PDF is non-empty. -/
theorem create_pdf_drops_last_sorted (dir : List (Nat × Hash)) :
    (2 ≤ dir.length →
      ∃ last, (sorted_files dir).getLast? = some last ∧
        create_pdf dir = some (sorted_files dir).dropLast ∧
        (sorted_files dir).dropLast ++ [last] = sorted_files dir ∧
        (sorted_files dir).dropLast.length = dir.length - 1 ∧
        List.Sorted (· ≤ ·) (sorted_files dir).dropLast ∧
        ∀ n ∈ dir.map Prod.fst, n ≤ last) ∧
    (dir.length = 1 →
      create_pdf dir = some (sorted_files dir) ∧
      (sorted_files dir).length = 1 ∧
      List.Sorted (· ≤ ·) (sorted_files dir)) ∧
    (dir ≠ [] → ∃ pages, create_pdf dir = some pages ∧ pages ≠ []) := by
  have hlen : (sorted_files dir).length = dir.length := by
    unfold sorted_files
    rw [(List.perm_insertionSort _ _).length_eq, List.length_map]
  have hsorted : List.Sorted (· ≤ ·) (sorted_files dir) :=
    List.sorted_insertionSort _ _
  refine ⟨?_, ?_, ?_⟩
  · intro h2
    have hne : sorted_files dir ≠ [] := by
      intro hh; rw [hh] at hlen; simp at hlen; omega
    have hie : (sorted_files dir).isEmpty = false := by simp [hne]
    have hgt : (sorted_files dir).length > 1 := by rw [hlen]; omega
    refine ⟨(sorted_files dir).getLast hne, (List.getLast?_eq_getLast _ hne).symm ▸ rfl,
      by simp [create_pdf, hie, hgt], List.dropLast_append_getLast hne,
      by rw [List.length_dropLast, hlen],
      List.Pairwise.sublist (List.dropLast_sublist _) hsorted, ?_⟩
    intro n hn
    have hmem : n ∈ sorted_files dir := by
      unfold sorted_files
      exact ((List.perm_insertionSort _ _).mem_iff).mpr hn
    have hpair : ((sorted_files dir).dropLast ++
        [(sorted_files dir).getLast hne]).Pairwise (· ≤ ·) := by
      rw [List.dropLast_append_getLast hne]; exact hsorted
    rw [← List.dropLast_append_getLast hne] at hmem
    rcases List.mem_append.mp hmem with h1 | h1
    · exact (List.pairwise_append.mp hpair).2.2 n h1 _ (by simp)
    · rw [List.mem_singleton.mp h1]
  · intro h1
    have hne : sorted_files dir ≠ [] := by
      intro hh; rw [hh] at hlen; simp at hlen; omega
    have hie : (sorted_files dir).isEmpty = false := by simp [hne]
    have hngt : ¬(sorted_files dir).length > 1 := by rw [hlen]; omega
    exact ⟨by simp [create_pdf, hie, hngt], by rw [hlen, h1], hsorted⟩
  · intro hdne
    have hpos : 0 < dir.length := List.length_pos.mpr hdne
    have hne : sorted_files dir ≠ [] := by
      intro hh; rw [hh] at hlen; simp at hlen; omega
    have hie : (sorted_files dir).isEmpty = false := by simp [hne]
    by_cases hgt : (sorted_files dir).length > 1
    · refine ⟨(sorted_files dir).dropLast, by simp [create_pdf, hie, hgt], ?_⟩
      intro hh
      have hlen2 := congrArg List.length hh
      rw [List.length_dropLast] at hlen2
      simp at hlen2
      omega
    · exact ⟨sorted_files dir, by simp [create_pdf, hie, hgt], hne⟩

theorem create_pdf_drops_last_sorted_witness :
    create_pdf [(7, ['a']), (5, ['b']), (6, ['c'])] =
      some (sorted_files [(7, ['a']), (5, ['b']), (6, ['c'])]).dropLast ∧
    (sorted_files [(7, ['a']), (5, ['b']), (6, ['c'])]).dropLast.length = 2 := by
  have h := (create_pdf_drops_last_sorted [(7, ['a']), (5, ['b']), (6, ['c'])]).1
    (by decide)
  obtain ⟨last, h1, h2, h3, h4, h5, h6⟩ := h
  exact ⟨h2, by simpa using h4⟩

/-- C2: for every 32×32 luminance grid (the flat pixel list of length 1024
produced by the grayscale conversion and bicubic resize) and every table of
cosine values, the emitted fingerprint is a 64-bit sequence whose bit at
position (0,0) is fixed to 0 and whose bit at every other position (y,x) of the
top-left 8×8 block of the rows-then-columns DCT is 1 exactly when that
coefficient strictly exceeds the mean of the block's 63 non-DC coefficients. -/
theorem phash_bits_spec (c : Nat → Nat → Nat → ℚ) (pixels : List ℚ)
    (_hlen : pixels.length = 1024) (y x : Nat) (hy : y < 8) (hx : x < 8)
    (hnz : ¬(y = 0 ∧ x = 0)) :
    (calculate_phash c pixels).length = 64 ∧
    (calculate_phash c pixels).getD 0 ' ' = '0' ∧
    (calculate_phash c pixels).getD (8 * y + x) ' ' =
      (if ((phash_dct c pixels).getD y []).getD x 0 > phash_avg c pixels then '1'
       else '0') ∧
    (phash_vals c pixels).length = 63 ∧
    phash_avg c pixels = (phash_vals c pixels).sum / 63 := by
  have hrows : ∀ l ∈ (List.range 8).map fun y0 =>
      (List.range 8).map fun x0 =>
        if y0 = 0 ∧ x0 = 0 then '0'
        else if ((phash_dct c pixels).getD y0 []).getD x0 0 > phash_avg c pixels
        then '1' else '0', l.length = 8 := by
    intro l hl
    obtain ⟨y0, _, rfl⟩ := List.mem_map.mp hl
    simp
  have hbit : ∀ (y0 x0 : Nat), y0 < 8 → x0 < 8 →
      (calculate_phash c pixels).getD (8 * y0 + x0) ' ' =
        (if y0 = 0 ∧ x0 = 0 then '0'
         else if ((phash_dct c pixels).getD y0 []).getD x0 0 > phash_avg c pixels
         then '1' else '0') := by
    intro y0 x0 hy0 hx0
    unfold calculate_phash
    rw [flatten_getD_const 8 ' ' _ y0 x0 hrows (by simpa using hy0) hx0]
    rw [getD_map_range 8 _ y0 hy0]
    rw [getD_map_range 8 _ x0 hx0]
  have hvals : (phash_vals c pixels).length = 63 := by
    simp [phash_vals, List.range_succ]
  refine ⟨?_, ?_, ?_, hvals, ?_⟩
  · unfold calculate_phash
    rw [List.length_flatten]
    simp [List.map_map, Function.comp, List.range_succ]
  · have h0 := hbit 0 0 (by omega) (by omega)
    simpa using h0
  · rw [hbit y x hy hx, if_neg hnz]
  · have hne : phash_vals c pixels ≠ [] := by
      intro hh; rw [hh] at hvals; simp at hvals
    have hie : (phash_vals c pixels).isEmpty = false := by simp [hne]
    simp [phash_avg, hie, hvals]

/-- Witness for C2 at the all-zero cosine table, the constant pixel grid, and
bit position (0,1). -/
theorem phash_bits_spec_witness :
    (calculate_phash (fun _ _ _ => 0) (List.replicate 1024 (0 : ℚ))).length = 64 ∧
    (calculate_phash (fun _ _ _ => 0) (List.replicate 1024 (0 : ℚ))).getD 0 ' ' = '0' ∧
    (calculate_phash (fun _ _ _ => 0) (List.replicate 1024 (0 : ℚ))).getD
        (8 * 0 + 1) ' ' =
      (if ((phash_dct (fun _ _ _ => 0) (List.replicate 1024 (0 : ℚ))).getD 0 []).getD
            1 0 >
          phash_avg (fun _ _ _ => 0) (List.replicate 1024 (0 : ℚ)) then '1'
       else '0') ∧
    (phash_vals (fun _ _ _ => 0) (List.replicate 1024 (0 : ℚ))).length = 63 ∧
    phash_avg (fun _ _ _ => 0) (List.replicate 1024 (0 : ℚ)) =
      (phash_vals (fun _ _ _ => 0) (List.replicate 1024 (0 : ℚ))).sum / 63 :=
  phash_bits_spec (fun _ _ _ => 0) (List.replicate 1024 (0 : ℚ))
    (List.length_replicate 1024 0) 0 1 (by omega) (by omega) (by omega)

end EbookPdf
